import Mathlib

/-!
Verification development for the mm-bot repository.

Shallow embedding conventions:
* Rust f64 values carried by the domain newtypes (Price, Qty, Money, Bps,
  Ratio) are modelled as exact rationals (ℚ).  All arithmetic is therefore
  exact; the floating-point tolerances mentioned in the specification are
  not needed for the rational model (an exact bound implies the tolerant
  one).  NaN/infinity propagation is outside the model; rational division
  by zero yields 0 where IEEE would yield ±inf/NaN.
* Rust Option becomes Option, Result becomes Except.
* Mutable-state methods become functions from the receiver to the updated
  receiver.
* Timestamps (i64) become Int, counters (usize) become Nat.
-/

/-! ## state_machine crate: states, causes, transition function
(src/crates/state_machine/src/state.rs, cause.rs, transition.rs) -/

inductive BotState where
  | IdleUSDT
  | BosPotential
  | BosConfirmed
  | Rebalancing
  | MMNormal
  | MMDefensive
  | Exiting
deriving DecidableEq, Fintype

inductive TransitionCause where
  | HtfBosUpDetected
  | BosConfirmed
  | BosFailed
  | PullbackDetected
  | RebalanceDone
  | RebalanceFailed
  | LtfBosDown
  | LtfStructureRecovered
  | HtfBosDown
  | BreakEvenHit
  | BreakEvenWithFeesHit
  | ExitDone
deriving DecidableEq, Fintype

inductive TransitionError where
  | IllegalTransition (frm : BotState) (cause : TransitionCause)
deriving DecidableEq

/-- Embeds transition from src/crates/state_machine/src/transition.rs. -/
def transition (state : BotState) (cause : TransitionCause) :
    Except TransitionError BotState :=
  match state, cause with
  | .IdleUSDT, .HtfBosUpDetected => .ok .BosPotential
  | .BosPotential, .BosConfirmed => .ok .BosConfirmed
  | .BosPotential, .BosFailed => .ok .IdleUSDT
  | .BosPotential, .HtfBosDown => .ok .IdleUSDT
  | .BosConfirmed, .PullbackDetected => .ok .Rebalancing
  | .BosConfirmed, .HtfBosDown => .ok .IdleUSDT
  | .Rebalancing, .RebalanceDone => .ok .MMNormal
  | .Rebalancing, .RebalanceFailed => .ok .Exiting
  | .Rebalancing, .HtfBosDown => .ok .Exiting
  | .MMNormal, .LtfBosDown => .ok .MMDefensive
  | .MMNormal, .HtfBosDown => .ok .Exiting
  | .MMNormal, .BreakEvenHit => .ok .Exiting
  | .MMNormal, .BreakEvenWithFeesHit => .ok .Exiting
  | .MMDefensive, .LtfStructureRecovered => .ok .MMNormal
  | .MMDefensive, .HtfBosDown => .ok .Exiting
  | .MMDefensive, .BreakEvenHit => .ok .Exiting
  | .MMDefensive, .BreakEvenWithFeesHit => .ok .Exiting
  | .Exiting, .ExitDone => .ok .IdleUSDT
  | s, c => .error (.IllegalTransition s c)

/-- The MM transition table of spec section 4.5, written independently of
the code as the list of (state, cause, next state) rows. -/
def mmTransitionTable : List (BotState × TransitionCause × BotState) :=
  [ (.IdleUSDT, .HtfBosUpDetected, .BosPotential),
    (.BosPotential, .BosConfirmed, .BosConfirmed),
    (.BosPotential, .BosFailed, .IdleUSDT),
    (.BosPotential, .HtfBosDown, .IdleUSDT),
    (.BosConfirmed, .PullbackDetected, .Rebalancing),
    (.BosConfirmed, .HtfBosDown, .IdleUSDT),
    (.Rebalancing, .RebalanceDone, .MMNormal),
    (.Rebalancing, .RebalanceFailed, .Exiting),
    (.Rebalancing, .HtfBosDown, .Exiting),
    (.MMNormal, .LtfBosDown, .MMDefensive),
    (.MMNormal, .HtfBosDown, .Exiting),
    (.MMNormal, .BreakEvenHit, .Exiting),
    (.MMNormal, .BreakEvenWithFeesHit, .Exiting),
    (.MMDefensive, .LtfStructureRecovered, .MMNormal),
    (.MMDefensive, .HtfBosDown, .Exiting),
    (.MMDefensive, .BreakEvenHit, .Exiting),
    (.MMDefensive, .BreakEvenWithFeesHit, .Exiting),
    (.Exiting, .ExitDone, .IdleUSDT) ]

/-! ## structure crate: candles, market structure, BOS tracker, pullback
(src/crates/structure/src/candle.rs, structure.rs, bos.rs, pullback.rs) -/

/-- Candle from src/crates/structure/src/candle.rs.  The source field
named open is rendered op (Lean keyword). -/
structure Candle where
  ts : Int
  op : ℚ
  high : ℚ
  low : ℚ
  close : ℚ
  volume : ℚ
deriving DecidableEq

structure MarketStructure where
  last_high : Option ℚ
  last_low : Option ℚ
deriving DecidableEq

inductive BosState where
  | None
  | Potential
  | Confirmed
  | Failed
deriving DecidableEq

structure BosTracker where
  state : BosState
  level : Option ℚ
  started_at : Option Int
  confirmed_candles : Nat
deriving DecidableEq

structure BosParams where
  confirm_candles : Nat
  epsilon_frac : ℚ
deriving DecidableEq

def BosTracker.new : BosTracker :=
  { state := .None, level := none, started_at := none, confirmed_candles := 0 }

def BosTracker.reset (_t : BosTracker) : BosTracker :=
  BosTracker.new

/-- Embeds BosTracker::on_candle_close from src/crates/structure/src/bos.rs.
In the Potential arm the source unwraps level with expect; under the
tracked invariant (proved below) the level is always Some there, so the
model reads it with getD. -/
def BosTracker.on_candle_close (t : BosTracker) (candle : Candle)
    (ms : MarketStructure) (atr : ℚ) (params : BosParams) : BosTracker :=
  let epsilon := atr * params.epsilon_frac
  match t.state with
  | .None =>
    match ms.last_high with
    | some high =>
      if candle.close > high + epsilon then
        let t1 : BosTracker :=
          { t with state := .Potential, level := some high,
                   started_at := some candle.ts, confirmed_candles := 1 }
        if t1.confirmed_candles ≥ params.confirm_candles then
          { t1 with state := .Confirmed }
        else t1
      else t
    | none => t
  | .Potential =>
    let level := t.level.getD 0
    if candle.close ≤ level then t.reset
    else
      let t1 := if candle.close > level + epsilon then
          { t with confirmed_candles := t.confirmed_candles + 1 }
        else t
      if t1.confirmed_candles ≥ params.confirm_candles then
        { t1 with state := .Confirmed }
      else t1
  | .Confirmed =>
    match t.level with
    | some level => if candle.close ≤ level then t.reset else t
    | none => t
  | .Failed => t.reset

/-- One externally visible update of a BosTracker: either an on_candle_close
call with arbitrary inputs, or a reset call. -/
inductive BosStep where
  | close (candle : Candle) (ms : MarketStructure) (atr : ℚ) (params : BosParams)
  | reset

def bosApply (t : BosTracker) (s : BosStep) : BosTracker :=
  match s with
  | .close candle ms atr params => t.on_candle_close candle ms atr params
  | .reset => t.reset

/-- The invariant of spec section 3: level is Some iff the state is
Potential or Confirmed. -/
def bosInv (t : BosTracker) : Prop :=
  t.level.isSome ↔ (t.state = .Potential ∨ t.state = .Confirmed)

structure PullbackParams where
  epsilon_frac : ℚ
  retrace_frac : ℚ
deriving DecidableEq

structure PullbackTracker where
  max_price_after_bos : Option ℚ
  triggered : Bool
deriving DecidableEq

def PullbackTracker.new : PullbackTracker :=
  { max_price_after_bos := none, triggered := false }

/-- The max-of-history update on lines 47-51 of pullback.rs: previous max
joined with the high of the current candle. -/
def pb_new_max (t : PullbackTracker) (candle : Candle) : ℚ :=
  match t.max_price_after_bos with
  | some mx => max mx candle.high
  | none => candle.high

/-- Embeds PullbackTracker::on_candle_close from
src/crates/structure/src/pullback.rs. -/
def PullbackTracker.on_candle_close (t : PullbackTracker) (candle : Candle)
    (bos : BosTracker) (atr : ℚ) (params : PullbackParams) : PullbackTracker :=
  if bos.state ≠ BosState.Confirmed ∨ t.triggered then t
  else
    match bos.level with
    | none => t
    | some bos_level =>
      let t1 : PullbackTracker := { t with max_price_after_bos := some (pb_new_max t candle) }
      let max_price := pb_new_max t candle
      let impulse := max_price - bos_level
      if impulse ≤ 0 then t1
      else
        let epsilon := atr * params.epsilon_frac
        if |candle.close - bos_level| ≤ epsilon then { t1 with triggered := true }
        else
          let retrace := max_price - candle.close
          if retrace ≥ impulse * params.retrace_frac then { t1 with triggered := true }
          else t1

def PullbackTracker.reset (_t : PullbackTracker) : PullbackTracker :=
  PullbackTracker.new

/-! ## policy crate: MM policy and trend policy
(src/crates/policy/src/mm_policy.rs, trend_policy.rs) -/

inductive MmMode where
  | Disabled
  | Normal
  | Defensive
deriving DecidableEq

inductive MmDecisionReason where
  | NoConfirmedBos
  | NoPullback
  | InventoryOutsideSoftBand
  | InventoryOutsideHardBand
  | LtfStructureBroken
  | Ok
deriving DecidableEq

structure MmPolicyParams where
  soft_min : ℚ
  soft_max : ℚ
  hard_min : ℚ
  hard_max : ℚ
deriving DecidableEq

structure MmPolicyDecision where
  mode : MmMode
  reason : MmDecisionReason
deriving DecidableEq

/-- Embeds mm_policy_decision from src/crates/policy/src/mm_policy.rs. -/
def mm_policy_decision (bos_state : BosState) (pullback : PullbackTracker)
    (base_ratio : ℚ) (params : MmPolicyParams) : MmPolicyDecision :=
  if bos_state ≠ BosState.Confirmed then
    { mode := .Disabled, reason := .NoConfirmedBos }
  else if ¬ pullback.triggered then
    { mode := .Disabled, reason := .NoPullback }
  else
    let r := base_ratio
    if r < params.hard_min ∨ r > params.hard_max then
      { mode := .Disabled, reason := .InventoryOutsideHardBand }
    else if r < params.soft_min ∨ r > params.soft_max then
      { mode := .Defensive, reason := .InventoryOutsideSoftBand }
    else
      { mode := .Normal, reason := .Ok }

/-- The policy decision chain exactly as the spec states it (section 4.3),
with the band tests written as interval membership: evaluated in order,
1. not Confirmed, 2. not triggered, 3. r outside the closed hard band,
4. r outside the closed soft band, 5. Normal. -/
def mm_policy_decision_spec (bos_state : BosState) (pullback : PullbackTracker)
    (base_ratio : ℚ) (params : MmPolicyParams) : MmPolicyDecision :=
  if bos_state ≠ BosState.Confirmed then
    { mode := .Disabled, reason := .NoConfirmedBos }
  else if pullback.triggered = false then
    { mode := .Disabled, reason := .NoPullback }
  else if ¬ (params.hard_min ≤ base_ratio ∧ base_ratio ≤ params.hard_max) then
    { mode := .Disabled, reason := .InventoryOutsideHardBand }
  else if ¬ (params.soft_min ≤ base_ratio ∧ base_ratio ≤ params.soft_max) then
    { mode := .Defensive, reason := .InventoryOutsideSoftBand }
  else
    { mode := .Normal, reason := .Ok }

inductive TrendMode where
  | Flat
  | Long
deriving DecidableEq

inductive TrendAction where
  | HoldFlat
  | EnterLong
  | HoldLong
  | ExitLong
deriving DecidableEq

inductive TrendDecisionReason where
  | TrendUpEntry
  | TrendDown
  | AtrStopHit
  | NoSignal
  | InvalidLongOnlyInvariant
  | MissingEntryPrice
deriving DecidableEq

structure TrendPolicyParams where
  atr_stop_mult : ℚ
deriving DecidableEq

structure TrendPolicyInput where
  close : ℚ
  atr : ℚ
  ema_fast : ℚ
  ema_slow : ℚ
  position_qty : ℚ
  entry_price : Option ℚ
deriving DecidableEq

structure TrendPolicyDecision where
  next_mode : TrendMode
  action : TrendAction
  reason : TrendDecisionReason
deriving DecidableEq

/-- Embeds trend_policy_decision from src/crates/policy/src/trend_policy.rs. -/
def trend_policy_decision (mode : TrendMode) (input : TrendPolicyInput)
    (params : TrendPolicyParams) : TrendPolicyDecision :=
  if input.position_qty < 0 then
    { next_mode := .Flat, action := .ExitLong, reason := .InvalidLongOnlyInvariant }
  else
    let trend_up := input.ema_fast > input.ema_slow
    let trend_down := input.ema_fast < input.ema_slow
    match mode with
    | .Flat =>
      if input.position_qty > 0 then
        { next_mode := .Long, action := .HoldLong, reason := .NoSignal }
      else if trend_up then
        { next_mode := .Long, action := .EnterLong, reason := .TrendUpEntry }
      else
        { next_mode := .Flat, action := .HoldFlat, reason := .NoSignal }
    | .Long =>
      if input.position_qty = 0 then
        { next_mode := .Flat, action := .HoldFlat, reason := .NoSignal }
      else
        match input.entry_price with
        | none =>
          { next_mode := .Flat, action := .ExitLong, reason := .MissingEntryPrice }
        | some entry =>
          if trend_down then
            { next_mode := .Flat, action := .ExitLong, reason := .TrendDown }
          else
            let stop := entry - max params.atr_stop_mult 0 * max input.atr 0
            if input.close ≤ stop then
              { next_mode := .Flat, action := .ExitLong, reason := .AtrStopHit }
            else
              { next_mode := .Long, action := .HoldLong, reason := .NoSignal }

/-- The trend decision chain exactly as the claim lists it: a single
ordered first-match list, evaluated top to bottom. -/
def trend_policy_decision_spec (mode : TrendMode) (input : TrendPolicyInput)
    (params : TrendPolicyParams) : TrendPolicyDecision :=
  if input.position_qty < 0 then
    { next_mode := .Flat, action := .ExitLong, reason := .InvalidLongOnlyInvariant }
  else if mode = .Flat ∧ input.position_qty > 0 then
    { next_mode := .Long, action := .HoldLong, reason := .NoSignal }
  else if mode = .Flat ∧ input.ema_fast > input.ema_slow then
    { next_mode := .Long, action := .EnterLong, reason := .TrendUpEntry }
  else if mode = .Flat then
    { next_mode := .Flat, action := .HoldFlat, reason := .NoSignal }
  else if input.position_qty = 0 then
    { next_mode := .Flat, action := .HoldFlat, reason := .NoSignal }
  else if input.entry_price = none then
    { next_mode := .Flat, action := .ExitLong, reason := .MissingEntryPrice }
  else if input.ema_fast < input.ema_slow then
    { next_mode := .Flat, action := .ExitLong, reason := .TrendDown }
  else if input.close ≤ input.entry_price.getD 0 - max 0 params.atr_stop_mult * max 0 input.atr then
    { next_mode := .Flat, action := .ExitLong, reason := .AtrStopHit }
  else
    { next_mode := .Long, action := .HoldLong, reason := .NoSignal }

/-! ## execution crate: fee/spread/slippage fill model
(src/crates/execution/src/sim.rs) -/

structure ExecutionModel where
  fee_bps : ℚ
  spread_bps : ℚ
  slippage_bps : ℚ
deriving DecidableEq

def ExecutionModel.bps_to_ratio (bps : ℚ) : ℚ :=
  max bps 0 / 10000

def ExecutionModel.buy_fill_price (m : ExecutionModel) (mid : ℚ) : ℚ :=
  let half_spread := ExecutionModel.bps_to_ratio m.spread_bps / 2
  let slippage := ExecutionModel.bps_to_ratio m.slippage_bps
  mid * (1 + half_spread + slippage)

def ExecutionModel.sell_fill_price (m : ExecutionModel) (mid : ℚ) : ℚ :=
  let half_spread := ExecutionModel.bps_to_ratio m.spread_bps / 2
  let slippage := ExecutionModel.bps_to_ratio m.slippage_bps
  mid * (1 - half_spread - slippage)

def ExecutionModel.buy_qty_for_quote (m : ExecutionModel) (quote_budget mid : ℚ) : ℚ :=
  if quote_budget ≤ 0 ∨ mid ≤ 0 then 0
  else
    let fee := ExecutionModel.bps_to_ratio m.fee_bps
    let fill := m.buy_fill_price mid
    if fill ≤ 0 then 0
    else quote_budget / (fill * (1 + fee))

def ExecutionModel.buy_cost (m : ExecutionModel) (qty mid : ℚ) : ℚ :=
  if qty ≤ 0 ∨ mid ≤ 0 then 0
  else qty * m.buy_fill_price mid * (1 + ExecutionModel.bps_to_ratio m.fee_bps)

def ExecutionModel.sell_proceeds (m : ExecutionModel) (qty mid : ℚ) : ℚ :=
  if qty ≤ 0 ∨ mid ≤ 0 then 0
  else qty * m.sell_fill_price mid * (1 - ExecutionModel.bps_to_ratio m.fee_bps)

/-! ## mm crate: grid builder
(src/crates/mm/src/grid.rs) -/

inductive Side where
  | Buy
  | Sell
deriving DecidableEq

structure DesiredOrder where
  side : Side
  price : ℚ
  qty : ℚ
deriving DecidableEq

structure GridParams where
  levels : Nat
  step : ℚ
  base_quote_per_order : ℚ
  max_size_mult : ℚ
  soft_min : ℚ
  soft_max : ℚ
  hard_min : ℚ
  hard_max : ℚ
  min_base_qty : ℚ
deriving DecidableEq

structure Inventory where
  base : ℚ
  quote : ℚ
deriving DecidableEq

def equity (inv : Inventory) (mid : ℚ) : ℚ :=
  inv.quote + inv.base * mid

def base_ratio (inv : Inventory) (mid : ℚ) : Option ℚ :=
  let e := equity inv mid
  if e ≤ 0 then none else some ((inv.base * mid) / e)

def bps_factor (bps : ℚ) : ℚ :=
  1 + bps / 10000

/-- The running state of the level loop in build_grid: the two remaining
budgets and the orders emitted so far. -/
structure GridAcc where
  remaining_base : ℚ
  remaining_quote : ℚ
  out : List DesiredOrder
deriving DecidableEq

/-- One iteration of the loop body of build_grid (grid.rs lines 109-161)
at a given level, with the inventory-bias multipliers already fixed. -/
def gridStep (anchor : ℚ) (params : GridParams) (buy_mult sell_mult : ℚ)
    (acc : GridAcc) (level : ℕ) : GridAcc :=
  let step_bps := params.step * level
  let buy_price := anchor / bps_factor step_bps
  let sell_price := anchor * bps_factor step_bps
  let base_qty_buy := params.base_quote_per_order / buy_price
  let base_qty_sell := params.base_quote_per_order / sell_price
  let desired_buy_qty := base_qty_buy * buy_mult
  let desired_sell_qty := base_qty_sell * sell_mult
  let max_buy_qty_by_quote := if buy_price > 0 then acc.remaining_quote / buy_price else 0
  let buy_qty := max (min desired_buy_qty max_buy_qty_by_quote) 0
  let sell_qty := max (min desired_sell_qty acc.remaining_base) 0
  let acc1 :=
    if buy_qty ≥ params.min_base_qty then
      { acc with remaining_quote := acc.remaining_quote - buy_qty * buy_price,
                 out := acc.out ++ [⟨Side.Buy, buy_price, buy_qty⟩] }
    else acc
  if sell_qty ≥ params.min_base_qty then
    { acc1 with remaining_base := acc1.remaining_base - sell_qty,
                out := acc1.out ++ [⟨Side.Sell, sell_price, sell_qty⟩] }
  else acc1

/-- Embeds build_grid from src/crates/mm/src/grid.rs. -/
def build_grid (anchor mid : ℚ) (inv : Inventory) (params : GridParams) :
    Option (List DesiredOrder) :=
  if params.levels = 0 ∨ mid ≤ 0 ∨ anchor ≤ 0 then none
  else if inv.base < 0 ∨ inv.quote < 0 then none
  else
    match base_ratio inv mid with
    | none => none
    | some r =>
      if r < params.hard_min ∨ r > params.hard_max then none
      else
        let target : ℚ := 1 / 2
        let dist := |r - target|
        let mult := 1 + (params.max_size_mult - 1) * min (dist / (1 / 2)) 1
        let bs := if r > target then (1 / mult, mult)
          else if r < target then (mult, 1 / mult)
          else ((1 : ℚ), (1 : ℚ))
        let acc := (List.range' 1 params.levels).foldl
          (gridStep anchor params bs.1 bs.2) ⟨inv.base, inv.quote, []⟩
        some acc.out

/-- Total notional of the buy orders of a grid. -/
def buyNotional (orders : List DesiredOrder) : ℚ :=
  (orders.map fun o => if o.side = Side.Buy then o.qty * o.price else 0).sum

/-- Total base quantity of the sell orders of a grid. -/
def sellQtySum (orders : List DesiredOrder) : ℚ :=
  (orders.map fun o => if o.side = Side.Sell then o.qty else 0).sum

/-! ## engine crate, sweep binary: report ranking
(src/crates/engine/src/bin/backtest_mm_mtf_sweep.rs lines 682-696) -/

/-- Report of one sweep configuration.  Fill counters are naturals, the
performance numbers are rationals standing for the f64 fields. -/
structure MmMtfReport where
  buy_fills : Nat
  sell_fills : Nat
  bootstrap_trades : Nat
  win_rate_pct : ℚ
  avg_win : ℚ
  avg_loss : ℚ
  profit_factor : ℚ
  max_drawdown_pct : ℚ
  pnl : ℚ
  roi_pct : ℚ
deriving DecidableEq

/-- Total comparison of two rationals, the image of f64 partial_cmp on the
NaN-free fragment (the rational model has no NaN, so the unwrap_or(Equal)
fallback of the source never fires). -/
def qcmp (x y : ℚ) : Ordering :=
  if x < y then .lt else if x = y then .eq else .gt

/-- The sort_by comparator of the sweep: roi_pct descending, then
max_drawdown_pct ascending, then profit_factor descending. -/
def reportCmp (a b : MmMtfReport) : Ordering :=
  (qcmp b.roi_pct a.roi_pct).then
    ((qcmp a.max_drawdown_pct b.max_drawdown_pct).then
      (qcmp b.profit_factor a.profit_factor))

/-- The comparator as a boolean not-greater relation, the form a
comparison sort consumes. -/
def reportLe (a b : MmMtfReport) : Bool :=
  match reportCmp a b with
  | .gt => false
  | _ => true

/-- The summary emission of the sweep main: sort all reports by the
comparator, keep the first top_n, attach rank = index + 1. -/
def sweepTopRows (all : List MmMtfReport) (top_n : Nat) : List (Nat × MmMtfReport) :=
  (((all.mergeSort reportLe).take top_n).enum).map fun p => (p.1 + 1, p.2)

/-! ## worker crate: run lifecycle status writes and the stdout extractor
(src/crates/worker/src/main.rs) -/

inductive RunStatus where
  | queued
  | running
  | completed
  | failed
deriving DecidableEq

/-- The status-bearing columns of a row of the runs table. -/
structure RunsRow where
  status : RunStatus
  exit_code : Option Int
  error : Option String
deriving DecidableEq

/-- The worker-side steps that touch a run row: the unconditional
UPDATE ... SET status = running of process_run (main.rs lines 87-96),
the completed UPDATE of the success branch (lines 178-188), mark_failed
(lines 480-495), and a persist_results pass, which writes only
run_metrics and run_artifacts. -/
inductive WorkerStep where
  | pickup
  | complete (code : Int)
  | fail (code : Option Int) (msg : String)
  | persistProgress

def applyStep (r : RunsRow) (s : WorkerStep) : RunsRow :=
  match s with
  | .pickup => { r with status := .running, exit_code := none, error := none }
  | .complete code => { r with status := .completed, exit_code := some code }
  | .fail code msg => { r with status := .failed, exit_code := some (code.getD (-1)), error := some msg }
  | .persistProgress => r

/-- The status each step writes, none for a step that leaves it alone. -/
def statusTarget : WorkerStep → Option RunStatus
  | .pickup => some .running
  | .complete _ => some .completed
  | .fail _ _ => some .failed
  | .persistProgress => none

def runRowAfter (r : RunsRow) (steps : List WorkerStep) : RunsRow :=
  steps.foldl applyStep r


/-! ## worker crate: the stdout metric/artifact extractor
(src/crates/worker/src/main.rs lines 242-279).  Rust string slices are
modelled as lists of characters. -/

abbrev Str := List Char

/-- Splits at every separator character, keeping empty pieces, as the
base of the Rust split adapters. -/
def splitOnPred (p : Char → Bool) : Str → List Str
  | [] => [[]]
  | c :: rest =>
    let r := splitOnPred p rest
    if p c then [] :: r
    else
      match r with
      | [] => [[c]]
      | w :: ws => (c :: w) :: ws

/-- Separator split with empty pieces removed: the behaviour of the Rust
split_whitespace / split-and-filter pipelines of the extractor. -/
def splitTokens (p : Char → Bool) (cs : Str) : List Str :=
  (splitOnPred p cs).filter fun t => !t.isEmpty

/-- Splits at the first matching character: before and after, the match
itself dropped, none when no character matches. -/
def splitOnceBy (p : Char → Bool) : Str → Option (Str × Str)
  | [] => none
  | c :: rest =>
    if p c then some ([], rest)
    else
      match splitOnceBy p rest with
      | some kv => some (c :: kv.1, kv.2)
      | none => none

def dropRightWhileStr (p : Char → Bool) (cs : Str) : Str :=
  (cs.reverse.dropWhile p).reverse

/-- Rust str trim: whitespace removed from both ends. -/
def trimStr (cs : Str) : Str :=
  dropRightWhileStr (fun c => c.isWhitespace) (cs.dropWhile fun c => c.isWhitespace)

/-- Rust trim_matches for one character: all leading and trailing
occurrences removed. -/
def trimMatchesChar (ch : Char) (cs : Str) : Str :=
  dropRightWhileStr (fun c => c == ch) (cs.dropWhile fun c => c == ch)

/-- Rust trim_end_matches for one character: all trailing occurrences
removed. -/
def trimEndMatchesChar (ch : Char) (cs : Str) : Str :=
  dropRightWhileStr (fun c => c == ch) cs

def digitsToNat (cs : Str) : ℕ :=
  cs.foldl (fun n c => 10 * n + (c.toNat - 48)) 0

def allDigits (cs : Str) : Bool :=
  cs.all fun c => c.isDigit

/-- The exponent part of a float literal: optional sign then digits. -/
def parseExp (cs : Str) : Option Int :=
  let sb : Int × Str :=
    match cs with
    | '+' :: r => (1, r)
    | '-' :: r => (-1, r)
    | r => (1, r)
  if sb.2.isEmpty || !allDigits sb.2 then none
  else some (sb.1 * digitsToNat sb.2)

/-- The mantissa of a float literal: digits with at most one point and at
least one digit overall. -/
def parseMantissa (cs : Str) : Option ℚ :=
  match splitOnceBy (fun c => c == '.') cs with
  | some ip =>
    if allDigits ip.1 && allDigits ip.2 && (!ip.1.isEmpty || !ip.2.isEmpty) then
      some ((digitsToNat ip.1 : ℚ) + (digitsToNat ip.2 : ℚ) / (10 : ℚ) ^ ip.2.length)
    else none
  | none =>
    if !cs.isEmpty && allDigits cs then some (digitsToNat cs : ℚ)
    else none

/-- Models the value.parse::<f64>() test of the extractor on the finite
decimal forms (sign, digits, optional point, optional exponent).  The
inf/nan spellings of the Rust grammar are outside the model; the engines
never emit them, and no claim depends on them. -/
def parseF64 (cs : Str) : Option ℚ :=
  let sb : ℚ × Str :=
    match cs with
    | '+' :: r => (1, r)
    | '-' :: r => (-1, r)
    | r => (1, r)
  match splitOnceBy (fun c => c == 'e' || c == 'E') sb.2 with
  | some me =>
    match parseMantissa me.1, parseExp me.2 with
    | some m, some e => some (sb.1 * m * (10 : ℚ) ^ e)
    | _, _ => none
  | none =>
    match parseMantissa sb.2 with
    | some m => some (sb.1 * m)
    | none => none

/-- A JSON value as far as the metrics map uses one: a number or a
string. -/
inductive Jval where
  | num (val : ℚ)
  | str (s : Str)
deriving DecidableEq

/-- Insert-or-overwrite on the metrics map, the serde_json Map::insert of
the extractor. -/
def mapInsert : List (Str × Jval) → Str → Jval → List (Str × Jval)
  | [], k, v => [(k, v)]
  | (k0, v0) :: rest, k, v =>
    if k0 = k then (k0, v) :: rest else (k0, v0) :: mapInsert rest k v

/-- The strip_prefix("artifacts:") test at the head of the extractor. -/
def stripArtifactsTag : Str → Option Str
  | 'a' :: 'r' :: 't' :: 'i' :: 'f' :: 'a' :: 'c' :: 't' :: 's' :: ':' :: rest =>
    some rest
  | _ => none

/-- The artifacts branch of collect_results_from_line (lines 247-257):
on an artifacts: line, each whitespace-separated k=v token with nonempty
trimmed parts is appended as an artifact. -/
def artifactsPhase (line : Str) (artifacts : List (Str × Str)) :
    List (Str × Str) :=
  match stripArtifactsTag line with
  | some rest =>
    (splitTokens (fun c => c.isWhitespace) rest).foldl
      (fun acc token =>
        match splitOnceBy (fun c => c == '=') token with
        | some kv =>
          let kind := trimStr kv.1
          let path := trimEndMatchesChar ',' (trimStr kv.2)
          if !kind.isEmpty && !path.isEmpty then acc ++ [(kind, path)] else acc
        | none => acc)
      artifacts
  | none => artifacts

/-- The separator set of the metrics tokenizer: whitespace, comma,
semicolon. -/
def metricSep (c : Char) : Bool :=
  c.isWhitespace || c == ',' || c == ';'

/-- The metrics loop of collect_results_from_line (lines 259-278): every
k=v token of the whole line becomes a metric, numeric when the value
parses as a float after stripping a trailing percent sign, a string
otherwise. -/
def metricsPhase (line : Str) (metrics : List (Str × Jval)) :
    List (Str × Jval) :=
  (splitTokens metricSep line).foldl
    (fun m token =>
      match splitOnceBy (fun c => c == '=') token with
      | some kv =>
        let key := trimStr kv.1
        if key.isEmpty then m
        else
          let value := trimEndMatchesChar ',' (trimMatchesChar '"' (trimStr kv.2))
          if value.isEmpty then m
          else
            match parseF64 (trimEndMatchesChar '%' value) with
            | some n => mapInsert m key (Jval.num n)
            | none => mapInsert m key (Jval.str value)
      | none => m)
    metrics

/-- Embeds collect_results_from_line from src/crates/worker/src/main.rs:
the artifacts branch and then, unconditionally, the metrics tokenizer over
the same full line. -/
def collect_results_from_line (line : Str) (metrics : List (Str × Jval))
    (artifacts : List (Str × Str)) :
    List (Str × Jval) × List (Str × Str) :=
  (metricsPhase line metrics, artifactsPhase line artifacts)

instance : DecidableEq (Except TransitionError BotState) :=
  fun a b =>
    match a, b with
    | .ok x, .ok y =>
      if h : x = y then .isTrue (by rw [h]) else .isFalse (by simp [h])
    | .error x, .error y =>
      if h : x = y then .isTrue (by rw [h]) else .isFalse (by simp [h])
    | .ok _, .error _ => .isFalse (by simp)
    | .error _, .ok _ => .isFalse (by simp)

/-! ## Theorems -/

/-- C3: transition returns Ok exactly on the state/cause pairs of the MM
transition table of spec section 4.5 (with the listed next states), returns
IllegalTransition with the offending pair on every other pair, and the
happy-path chain IdleUSDT → BosPotential → BosConfirmed → Rebalancing →
MMNormal → MMDefensive → Exiting → IdleUSDT succeeds with the documented
causes. -/
theorem C3_transition_table :
    (∀ s c n, transition s c = .ok n ↔ (s, c, n) ∈ mmTransitionTable) ∧
    (∀ s c, (¬ ∃ n, (s, c, n) ∈ mmTransitionTable) →
      transition s c = .error (.IllegalTransition s c)) ∧
    (transition .IdleUSDT .HtfBosUpDetected = .ok .BosPotential ∧
     transition .BosPotential .BosConfirmed = .ok .BosConfirmed ∧
     transition .BosConfirmed .PullbackDetected = .ok .Rebalancing ∧
     transition .Rebalancing .RebalanceDone = .ok .MMNormal ∧
     transition .MMNormal .LtfBosDown = .ok .MMDefensive ∧
     transition .MMDefensive .HtfBosDown = .ok .Exiting ∧
     transition .Exiting .ExitDone = .ok .IdleUSDT) := by
  refine ⟨by decide, by decide, by decide⟩

/-- C3 witness: a concrete pair outside the table is rejected with the
IllegalTransition error carrying that pair. -/
theorem C3_transition_table_witness :
    transition .IdleUSDT .ExitDone = .error (.IllegalTransition .IdleUSDT .ExitDone) :=
  C3_transition_table.2.1 BotState.IdleUSDT TransitionCause.ExitDone (by decide)

/-- C2: mm_policy_decision is exactly the ordered first-match chain of the
spec: Disabled(NoConfirmedBos) when BOS is not confirmed, then
Disabled(NoPullback) when the pullback has not triggered, then
Disabled(InventoryOutsideHardBand) when r is outside the closed hard band,
then Defensive(InventoryOutsideSoftBand) when r is outside the closed soft
band, else Normal(Ok). -/
theorem C2_mm_policy_chain :
    ∀ (bos_state : BosState) (pullback : PullbackTracker) (r : ℚ)
      (params : MmPolicyParams),
      mm_policy_decision bos_state pullback r params =
        mm_policy_decision_spec bos_state pullback r params := by
  intro bs pb r p
  simp only [mm_policy_decision, mm_policy_decision_spec, not_and_or, not_le,
    gt_iff_lt, Bool.not_eq_true, Bool.not_eq_true']

/-- C5: trend_policy_decision is exactly the ordered first-match chain of
spec section 4.4, evaluated top to bottom. -/
theorem C5_trend_policy_chain :
    ∀ (mode : TrendMode) (input : TrendPolicyInput) (params : TrendPolicyParams),
      trend_policy_decision mode input params =
        trend_policy_decision_spec mode input params := by
  intro mode input p
  rcases hmode : mode <;>
    rcases hentry : input.entry_price with _ | entry <;>
      simp only [trend_policy_decision, trend_policy_decision_spec, hentry,
        Option.getD_some] <;>
        split_ifs <;>
          first
            | rfl
            | (simp_all; done)
            | (exfalso; rw [max_comm (0 : ℚ) p.atr_stop_mult, max_comm (0 : ℚ) input.atr] at *; linarith)

/-- Core inequality behind the round-trip loss: with nonnegative fee F,
half-spread S and slippage L summing to a positive cost, buying a quote
budget B at mid and selling the bought quantity at the same mid returns
strictly less than B. -/
theorem round_trip_core (B mid F S L : ℚ) (hB : 0 < B) (hmid : 0 < mid)
    (hF : 0 ≤ F) (hS : 0 ≤ S) (hL : 0 ≤ L) (hsum : 0 < F + S + L) :
    B / (mid * (1 + S + L) * (1 + F)) * (mid * (1 - S - L)) * (1 - F) < B := by
  have hd : 0 < mid * (1 + S + L) * (1 + F) :=
    mul_pos (mul_pos hmid (by linarith)) (by linarith)
  rw [div_mul_eq_mul_div, div_mul_eq_mul_div, div_lt_iff₀ hd]
  nlinarith [mul_pos (mul_pos hB hmid) hsum, mul_pos hB hmid]

/-- C4: for every execution model whose clamped cost parameters are
nonnegative with at least one strictly positive, and every positive budget
and positive mid, selling the quantity bought with the budget at the same
mid yields strictly less than the budget. -/
theorem C4_round_trip_loses (m : ExecutionModel) (B mid : ℚ)
    (hpos : 0 < max m.fee_bps 0 ∨ 0 < max m.spread_bps 0 ∨ 0 < max m.slippage_bps 0)
    (hB : 0 < B) (hmid : 0 < mid) :
    m.sell_proceeds (m.buy_qty_for_quote B mid) mid < B := by
  have h4 : (0:ℚ) < 10000 := by norm_num
  have hf0 : 0 ≤ ExecutionModel.bps_to_ratio m.fee_bps :=
    div_nonneg (le_max_right _ _) h4.le
  have hsp0 : 0 ≤ ExecutionModel.bps_to_ratio m.spread_bps / 2 :=
    div_nonneg (div_nonneg (le_max_right _ _) h4.le) (by norm_num)
  have hsl0 : 0 ≤ ExecutionModel.bps_to_ratio m.slippage_bps :=
    div_nonneg (le_max_right _ _) h4.le
  have hsum : 0 < ExecutionModel.bps_to_ratio m.fee_bps
      + ExecutionModel.bps_to_ratio m.spread_bps / 2
      + ExecutionModel.bps_to_ratio m.slippage_bps := by
    rcases hpos with h | h | h
    · have : 0 < ExecutionModel.bps_to_ratio m.fee_bps := div_pos h h4
      linarith
    · have : 0 < ExecutionModel.bps_to_ratio m.spread_bps / 2 :=
        div_pos (div_pos h h4) (by norm_num)
      linarith
    · have : 0 < ExecutionModel.bps_to_ratio m.slippage_bps := div_pos h h4
      linarith
  have hfill : 0 < m.buy_fill_price mid := by
    simp only [ExecutionModel.buy_fill_price]
    exact mul_pos hmid (by linarith)
  have hq : m.buy_qty_for_quote B mid
      = B / (m.buy_fill_price mid * (1 + ExecutionModel.bps_to_ratio m.fee_bps)) := by
    simp only [ExecutionModel.buy_qty_for_quote]
    rw [if_neg (by push_neg; exact ⟨hB, hmid⟩ : ¬ (B ≤ 0 ∨ mid ≤ 0))]
    rw [if_neg (not_le.2 hfill)]
  have hqpos : 0 < m.buy_qty_for_quote B mid := by
    rw [hq]
    exact div_pos hB (mul_pos hfill (by linarith))
  have hp : m.sell_proceeds (m.buy_qty_for_quote B mid) mid
      = m.buy_qty_for_quote B mid * m.sell_fill_price mid
        * (1 - ExecutionModel.bps_to_ratio m.fee_bps) := by
    simp only [ExecutionModel.sell_proceeds]
    rw [if_neg (by push_neg; exact ⟨hqpos, hmid⟩
      : ¬ (m.buy_qty_for_quote B mid ≤ 0 ∨ mid ≤ 0))]
  rw [hp, hq]
  simp only [ExecutionModel.buy_fill_price, ExecutionModel.sell_fill_price]
  exact round_trip_core B mid (ExecutionModel.bps_to_ratio m.fee_bps)
    (ExecutionModel.bps_to_ratio m.spread_bps / 2)
    (ExecutionModel.bps_to_ratio m.slippage_bps) hB hmid hf0 hsp0 hsl0 hsum

/-- C4 witness: the spec scenario fee=10bps, spread=10bps, slippage=5bps,
mid=100, budget=1000 round-trips to strictly less than 1000. -/
theorem C4_round_trip_loses_witness :
    (ExecutionModel.mk 10 10 5).sell_proceeds
      ((ExecutionModel.mk 10 10 5).buy_qty_for_quote 1000 100) 100 < 1000 :=
  C4_round_trip_loses (ExecutionModel.mk 10 10 5) 1000 100
    (Or.inl (by norm_num)) (by norm_num) (by norm_num)

/-- Helper: the freshly created BOS tracker satisfies the level/state
invariant. -/
theorem bosInv_new : bosInv BosTracker.new := by
  simp [bosInv, BosTracker.new]

/-- Helper: reset restores the invariant unconditionally. -/
theorem bosInv_reset (t : BosTracker) : bosInv t.reset := by
  simp [bosInv, BosTracker.reset, BosTracker.new]

/-- Helper: every single step (candle close with arbitrary inputs, or
reset) preserves the level/state invariant. -/
theorem bosInv_apply (t : BosTracker) (s : BosStep) (h : bosInv t) :
    bosInv (bosApply t s) := by
  obtain ⟨st, lv, sa, cc⟩ := t
  cases s with
  | reset => simpa [bosApply] using bosInv_reset _
  | close c ms atr p =>
    simp only [bosInv] at h ⊢
    cases st <;> cases hlv : lv <;> cases hms : ms.last_high <;>
      simp_all [bosApply, BosTracker.on_candle_close, BosTracker.reset,
        BosTracker.new] <;>
      split_ifs <;> simp_all

/-- C7: for a tracker created by new and updated by any sequence of
on_candle_close calls (arbitrary candles, structures, ATR values and
parameters) and reset calls, after every step the level is Some exactly
when the state is Potential or Confirmed. -/
theorem C7_bos_level_invariant :
    ∀ steps : List BosStep, bosInv (steps.foldl bosApply BosTracker.new) := by
  intro steps
  suffices hgen : ∀ t, bosInv t → bosInv (steps.foldl bosApply t) from
    hgen _ bosInv_new
  induction steps with
  | nil => exact fun t h => h
  | cons s rest ih => exact fun t h => ih _ (bosInv_apply t s h)

/-- C6 (amended): a pullback step while BOS is Confirmed with a known level
and the latch not yet set first writes the updated running maximum, and
sets triggered exactly when the impulse (max minus level) is strictly
positive and one of the two retracement conditions holds; when BOS is not
Confirmed or the latch is already set the call changes nothing. -/
theorem C6_pullback_update :
    (∀ (t : PullbackTracker) (c : Candle) (bos : BosTracker) (atr : ℚ)
        (p : PullbackParams),
      (bos.state ≠ BosState.Confirmed ∨ t.triggered = true) →
        t.on_candle_close c bos atr p = t) ∧
    (∀ (t : PullbackTracker) (c : Candle) (bos : BosTracker) (atr : ℚ)
        (p : PullbackParams) (lvl : ℚ),
      bos.state = BosState.Confirmed → bos.level = some lvl →
      t.triggered = false →
        (t.on_candle_close c bos atr p).max_price_after_bos
            = some (pb_new_max t c) ∧
        ((t.on_candle_close c bos atr p).triggered = true ↔
          (0 < pb_new_max t c - lvl ∧
            (|c.close - lvl| ≤ atr * p.epsilon_frac ∨
              (pb_new_max t c - lvl) * p.retrace_frac ≤ pb_new_max t c - c.close)))) := by
  constructor
  · intro t c bos atr p h
    rcases h with h | h <;> simp [PullbackTracker.on_candle_close, h]
  · intro t c bos atr p lvl hs hl ht
    simp only [PullbackTracker.on_candle_close, hs, hl, ht]
    simp only [ne_eq, not_true_eq_false, Bool.false_eq_true, or_self, if_false]
    split_ifs with h1 h2 h3
    · refine ⟨rfl, ?_⟩
      simp only [ht, Bool.false_eq_true, false_iff]
      rintro ⟨hpos, _⟩
      linarith
    · exact ⟨rfl, by simp only [true_iff]; exact ⟨by linarith, Or.inl h2⟩⟩
    · exact ⟨rfl, by simp only [true_iff]; exact ⟨by linarith, Or.inr (by linarith)⟩⟩
    · refine ⟨rfl, ?_⟩
      simp only [ht, Bool.false_eq_true, false_iff]
      rintro ⟨hpos, hA | hB⟩
      · exact h2 hA
      · exact h3 (by linarith)

/-- C6 witness: a confirmed-BOS candle that retraces to the level with a
positive impulse concretely sets the latch. -/
theorem C6_pullback_update_witness :
    (PullbackTracker.on_candle_close ⟨none, false⟩ ⟨0, 10, 12, 9, 10, 0⟩
      ⟨.Confirmed, some 10, none, 0⟩ 1 ⟨1, 1/2⟩).triggered = true :=
  (C6_pullback_update.2 ⟨none, false⟩ ⟨0, 10, 12, 9, 10, 0⟩
    ⟨.Confirmed, some 10, none, 0⟩ 1 ⟨1, 1/2⟩ 10 rfl rfl rfl).2.mpr
    ⟨by norm_num [pb_new_max], Or.inl (by norm_num [pb_new_max])⟩

/-- C6 counterexample to the claim as stated: with a zero impulse
(candle high equal to the level) the closeness condition A holds, yet the
source returns before testing it, so the latch stays unset. -/
theorem C6_counterexample :
    PullbackTracker.on_candle_close ⟨none, false⟩ ⟨0, 10, 10, 10, 10, 0⟩
        ⟨.Confirmed, some 10, none, 0⟩ 1 ⟨1, 1/2⟩
      = { max_price_after_bos := some 10, triggered := false } ∧
    |(10:ℚ) - 10| ≤ 1 * 1 := by
  constructor
  · norm_num [PullbackTracker.on_candle_close, pb_new_max]
  · norm_num

/-- Helper: prepending to a list shifts the default of the last-element
read to the new head. -/
theorem getLastD_cons {α : Type} (t x : α) (l : List α) :
    ((t :: l).getLast?).getD x = (l.getLast?).getD t := by
  cases l with
  | nil => rfl
  | cons a l2 =>
    rw [List.getLast?_cons_cons]
    rcases ha : (a :: l2).getLast? with _ | y
    · simp [List.getLast?] at ha
    · simp [ha]

/-- C9 (amended): worker status writes are unconditional on the prior
status, so after any step sequence the run status equals the status
written by the last status-writing step, with the starting status only
surviving when no step wrote one; in particular a pickup of a replayed
queue id moves a completed run back to running. -/
theorem C9_status_last_writer :
    (∀ (r : RunsRow) (steps : List WorkerStep),
      (runRowAfter r steps).status
        = ((steps.filterMap statusTarget).getLast?).getD r.status) ∧
    (applyStep ⟨.completed, some 0, none⟩ .pickup).status = .running := by
  constructor
  · intro r steps
    induction steps generalizing r with
    | nil => rfl
    | cons s rest ih =>
      have hstep : runRowAfter r (s :: rest) = runRowAfter (applyStep r s) rest := rfl
      rw [hstep, ih]
      cases s <;>
        simp [statusTarget, List.filterMap_cons, getLastD_cons, applyStep]
  · rfl

/-- C9 counterexample to the claim as stated: the worker pickup update
(main.rs lines 87-96) has no status guard, so a run already terminal at
completed is moved back to running when its id is replayed. -/
theorem C9_counterexample :
    (applyStep ⟨RunStatus.completed, some 0, none⟩ WorkerStep.pickup).status
        = RunStatus.running ∧
    RunStatus.running ≠ RunStatus.completed := by
  exact ⟨rfl, by decide⟩

/-- Helper: qcmp returns lt exactly on strictly smaller inputs. -/
theorem qcmp_lt_iff (x y : ℚ) : qcmp x y = .lt ↔ x < y := by
  unfold qcmp
  split_ifs with h1 h2
  · simp [h1]
  · subst h2; simp [lt_irrefl]
  · simpa using h1

/-- Helper: qcmp returns eq exactly on equal inputs. -/
theorem qcmp_eq_iff (x y : ℚ) : qcmp x y = .eq ↔ x = y := by
  unfold qcmp
  split_ifs with h1 h2
  · simp [ne_of_lt h1]
  · simp [h2]
  · simpa using h2

/-- Helper: qcmp returns gt exactly on strictly larger inputs. -/
theorem qcmp_gt_iff (x y : ℚ) : qcmp x y = .gt ↔ y < x := by
  unfold qcmp
  split_ifs with h1 h2
  · simp [asymm h1]
  · subst h2; simp [lt_irrefl]
  · simp
    rcases lt_trichotomy x y with h | h | h
    · exact absurd h h1
    · exact absurd h h2
    · exact h

/-- Helper: a chained Ordering is lt iff the first link is lt, or the
first link ties and the second is lt. -/
theorem then_eq_lt (a b : Ordering) :
    a.then b = .lt ↔ (a = .lt ∨ (a = .eq ∧ b = .lt)) := by
  cases a <;> simp [Ordering.then]

/-- Helper: a chained Ordering ties iff both links tie. -/
theorem then_eq_eq (a b : Ordering) :
    a.then b = .eq ↔ (a = .eq ∧ b = .eq) := by
  cases a <;> simp [Ordering.then]

/-- Helper: a chained Ordering is gt iff the first link is gt, or the
first link ties and the second is gt. -/
theorem then_eq_gt (a b : Ordering) :
    a.then b = .gt ↔ (a = .gt ∨ (a = .eq ∧ b = .gt)) := by
  cases a <;> simp [Ordering.then]

/-- Helper: the sweep comparator ranks a strictly before b exactly on the
lexicographic chain roi desc, drawdown asc, profit factor desc. -/
theorem reportCmp_lt_iff (a b : MmMtfReport) :
    reportCmp a b = .lt ↔
      (b.roi_pct < a.roi_pct ∨ (b.roi_pct = a.roi_pct ∧
        (a.max_drawdown_pct < b.max_drawdown_pct ∨
          (a.max_drawdown_pct = b.max_drawdown_pct ∧
            b.profit_factor < a.profit_factor)))) := by
  unfold reportCmp
  rw [then_eq_lt, qcmp_lt_iff, qcmp_eq_iff, then_eq_lt, qcmp_lt_iff,
    qcmp_eq_iff, qcmp_lt_iff]

/-- Helper: the sweep comparator ties exactly on equal key triples. -/
theorem reportCmp_eq_iff (a b : MmMtfReport) :
    reportCmp a b = .eq ↔
      (b.roi_pct = a.roi_pct ∧ a.max_drawdown_pct = b.max_drawdown_pct ∧
        b.profit_factor = a.profit_factor) := by
  unfold reportCmp
  rw [then_eq_eq, then_eq_eq, qcmp_eq_iff, qcmp_eq_iff, qcmp_eq_iff]

/-- Helper: the sweep comparator ranks a strictly after b exactly on the
mirrored lexicographic chain. -/
theorem reportCmp_gt_iff (a b : MmMtfReport) :
    reportCmp a b = .gt ↔
      (a.roi_pct < b.roi_pct ∨ (b.roi_pct = a.roi_pct ∧
        (b.max_drawdown_pct < a.max_drawdown_pct ∨
          (a.max_drawdown_pct = b.max_drawdown_pct ∧
            a.profit_factor < b.profit_factor)))) := by
  unfold reportCmp
  rw [then_eq_gt, qcmp_gt_iff, qcmp_eq_iff, then_eq_gt, qcmp_gt_iff,
    qcmp_eq_iff, qcmp_gt_iff]

/-- Helper: strict comparator order is transitive. -/
theorem reportCmp_lt_trans (a b c : MmMtfReport)
    (h1 : reportCmp a b = .lt) (h2 : reportCmp b c = .lt) :
    reportCmp a c = .lt := by
  rw [reportCmp_lt_iff] at h1 h2 ⊢
  rcases h1 with hr1 | ⟨er1, hd1⟩ <;> rcases h2 with hr2 | ⟨er2, hd2⟩
  · exact Or.inl (lt_trans hr2 hr1)
  · exact Or.inl (by rw [er2]; exact hr1)
  · exact Or.inl (by rw [← er1]; exact hr2)
  · refine Or.inr ⟨er2.trans er1, ?_⟩
    rcases hd1 with hdd1 | ⟨ed1, hp1⟩ <;> rcases hd2 with hdd2 | ⟨ed2, hp2⟩
    · exact Or.inl (lt_trans hdd1 hdd2)
    · exact Or.inl (by rw [← ed2]; exact hdd1)
    · exact Or.inl (by rw [ed1]; exact hdd2)
    · exact Or.inr ⟨ed1.trans ed2, lt_trans hp2 hp1⟩

/-- Helper: the boolean not-greater form of the comparator. -/
theorem reportLe_iff (a b : MmMtfReport) :
    reportLe a b = true ↔ reportCmp a b ≠ .gt := by
  unfold reportLe
  rcases h : reportCmp a b <;> simp [h]

/-- Helper: a tie on the right leaves the comparator unchanged. -/
theorem reportCmp_congr_right (a b c : MmMtfReport)
    (h : reportCmp b c = .eq) : reportCmp a b = reportCmp a c := by
  obtain ⟨e1, e2, e3⟩ := (reportCmp_eq_iff b c).1 h
  unfold reportCmp
  rw [e1, ← e2, e3]

/-- Helper: a tie on the left leaves the comparator unchanged. -/
theorem reportCmp_congr_left (a b c : MmMtfReport)
    (h : reportCmp a b = .eq) : reportCmp a c = reportCmp b c := by
  obtain ⟨e1, e2, e3⟩ := (reportCmp_eq_iff a b).1 h
  unfold reportCmp
  rw [e1, ← e2, e3]

/-- Helper: the comparator takes exactly one of the three values, so the
boolean relation is total. -/
theorem reportLe_total (a b : MmMtfReport) :
    reportLe a b = true ∨ reportLe b a = true := by
  by_cases h : reportCmp a b = .gt
  · right
    rw [reportLe_iff]
    intro hba
    have h1 := (reportCmp_gt_iff a b).1 h
    have h2 := (reportCmp_gt_iff b a).1 hba
    rcases h1 with hr1 | ⟨er1, hd1⟩ <;> rcases h2 with hr2 | ⟨er2, hd2⟩
    · exact absurd hr2 (asymm hr1)
    · exact absurd er2 (ne_of_lt hr1)
    · exact absurd er1 (ne_of_lt hr2)
    · rcases hd1 with hdd1 | ⟨ed1, hp1⟩ <;> rcases hd2 with hdd2 | ⟨ed2, hp2⟩
      · exact absurd hdd2 (asymm hdd1)
      · exact absurd ed2 (ne_of_lt hdd1)
      · exact absurd ed1 (ne_of_lt hdd2)
      · exact absurd hp2 (asymm hp1)
  · left
    exact (reportLe_iff a b).2 h

/-- Helper: the boolean not-greater relation is transitive. -/
theorem reportLe_trans (a b c : MmMtfReport)
    (h1 : reportLe a b = true) (h2 : reportLe b c = true) :
    reportLe a c = true := by
  rw [reportLe_iff] at h1 h2 ⊢
  rcases hab : reportCmp a b with _ | _ | _
  · rcases hbc : reportCmp b c with _ | _ | _
    · have := reportCmp_lt_trans a b c hab hbc
      simp [this]
    · rw [reportCmp_congr_right a b c hbc] at hab
      simp [hab]
    · exact absurd hbc h2
  · rw [reportCmp_congr_left a b c hab]
    exact h2
  · exact absurd hab h1

/-- Helper: an entry of enumFrom s carries an index at least s and an
element of the underlying list. -/
theorem mem_enumFrom_bounds {α : Type} (l : List α) (s : ℕ) (p : ℕ × α)
    (hp : p ∈ List.enumFrom s l) : s ≤ p.1 ∧ p.2 ∈ l := by
  induction l generalizing s with
  | nil => simp [List.enumFrom] at hp
  | cons a t ih =>
    rw [show List.enumFrom s (a :: t) = (s, a) :: List.enumFrom (s + 1) t from rfl] at hp
    rcases List.mem_cons.mp hp with h | h2
    · subst h
      exact ⟨le_rfl, List.mem_cons_self a t⟩
    · obtain ⟨h1, h3⟩ := ih (s + 1) h2
      exact ⟨le_trans (Nat.le_succ s) h1, List.mem_cons_of_mem a h3⟩

/-- Helper: enumerating a pairwise-related list is pairwise related with
strictly increasing indices. -/
theorem pairwise_enumFrom {α : Type} (R : α → α → Prop) (l : List α)
    (h : List.Pairwise R l) (s : ℕ) :
    List.Pairwise (fun p q : ℕ × α => p.1 < q.1 ∧ R p.2 q.2)
      (List.enumFrom s l) := by
  induction l generalizing s with
  | nil => simp [List.enumFrom]
  | cons a t ih =>
    obtain ⟨ha, ht⟩ := List.pairwise_cons.mp h
    refine List.Pairwise.cons ?_ (ih ht (s + 1))
    intro q hq
    obtain ⟨hq1, hq2⟩ := mem_enumFrom_bounds t (s + 1) q hq
    exact ⟨lt_of_lt_of_le (Nat.lt_succ_self s) hq1, ha _ hq2⟩

/-- Helper: the index projection of the rank rows of a list is the range
1..length. -/
theorem enumFrom_map_fst_add_one {α : Type} (l : List α) (s : ℕ) :
    (List.enumFrom s l).map (fun p => p.1 + 1) = List.range' (s + 1) l.length := by
  induction l generalizing s with
  | nil => simp [List.enumFrom]
  | cons a t ih =>
    simp only [List.enumFrom, List.map_cons, List.length_cons, ih (s + 1)]
    simp [List.range']

/-- C8: the sweep comparator is the lexicographic chain roi desc,
drawdown asc, profit factor desc; it ties exactly on equal key triples,
is total and transitive as a not-greater relation and transitive as a
strict relation; the emitted summary rows are the top-N of the sorted
report list (a permutation of the input) with ranks ascending from 1;
and the concrete report B{roi=5, dd=8, pf=1.1} ranks strictly above
A{roi=5, dd=10, pf=1.2}. -/
theorem C8_sweep_ranking :
    (∀ a b : MmMtfReport, reportCmp a b = .lt ↔
      (b.roi_pct < a.roi_pct ∨ (b.roi_pct = a.roi_pct ∧
        (a.max_drawdown_pct < b.max_drawdown_pct ∨
          (a.max_drawdown_pct = b.max_drawdown_pct ∧
            b.profit_factor < a.profit_factor))))) ∧
    (∀ a b : MmMtfReport, reportCmp a b = .eq ↔
      (b.roi_pct = a.roi_pct ∧ a.max_drawdown_pct = b.max_drawdown_pct ∧
        b.profit_factor = a.profit_factor)) ∧
    (∀ a b : MmMtfReport, reportLe a b = true ∨ reportLe b a = true) ∧
    (∀ a b c : MmMtfReport,
      reportLe a b = true → reportLe b c = true → reportLe a c = true) ∧
    (∀ a b c : MmMtfReport,
      reportCmp a b = .lt → reportCmp b c = .lt → reportCmp a c = .lt) ∧
    (∀ (all : List MmMtfReport) (top_n : ℕ),
      List.Pairwise (fun x y : ℕ × MmMtfReport => x.1 < y.1 ∧ reportLe x.2 y.2 = true)
        (sweepTopRows all top_n) ∧
      (sweepTopRows all top_n).map Prod.snd = (all.mergeSort reportLe).take top_n ∧
      (all.mergeSort reportLe).Perm all ∧
      (sweepTopRows all top_n).map Prod.fst = List.range' 1 (min top_n all.length)) ∧
    (reportCmp ⟨0, 0, 0, 0, 0, 0, 11/10, 8, 0, 5⟩ ⟨0, 0, 0, 0, 0, 0, 6/5, 10, 0, 5⟩
      = .lt) := by
  refine ⟨reportCmp_lt_iff, reportCmp_eq_iff, reportLe_total, reportLe_trans,
    reportCmp_lt_trans, ?_, ?_⟩
  · intro all top_n
    have hsorted : List.Pairwise (fun a b => reportLe a b = true)
        (all.mergeSort reportLe) :=
      List.sorted_mergeSort reportLe_trans
        (fun a b => by rcases reportLe_total a b with h | h <;> simp [h]) all
    have htake : List.Pairwise (fun a b => reportLe a b = true)
        ((all.mergeSort reportLe).take top_n) :=
      List.Pairwise.sublist (List.take_sublist _ _) hsorted
    refine ⟨?_, ?_, List.mergeSort_perm all reportLe, ?_⟩
    · unfold sweepTopRows
      rw [List.pairwise_map]
      have := pairwise_enumFrom (fun a b => reportLe a b = true) _ htake 0
      rw [List.enum] at *
      exact this.imp (fun h => ⟨Nat.succ_lt_succ h.1, h.2⟩)
    · unfold sweepTopRows
      rw [List.map_map]
      have : (Prod.snd ∘ fun p : ℕ × MmMtfReport => (p.1 + 1, p.2)) = Prod.snd := rfl
      rw [this, List.enum_map_snd]
    · unfold sweepTopRows
      rw [List.map_map]
      have : (Prod.fst ∘ fun p : ℕ × MmMtfReport => (p.1 + 1, p.2))
          = fun p : ℕ × MmMtfReport => p.1 + 1 := rfl
      rw [this, List.enum, enumFrom_map_fst_add_one, List.length_take,
        List.length_mergeSort]
  · rw [reportCmp_lt_iff]
    norm_num

/-- C8 witness: transitivity instantiated on three concrete reports,
chaining B above A above a third report with smaller roi. -/
theorem C8_sweep_ranking_witness :
    reportLe ⟨0, 0, 0, 0, 0, 0, 11/10, 8, 0, 5⟩ ⟨0, 0, 0, 0, 0, 0, 1, 1, 0, 4⟩ = true :=
  C8_sweep_ranking.2.2.2.1
    ⟨0, 0, 0, 0, 0, 0, 11/10, 8, 0, 5⟩ ⟨0, 0, 0, 0, 0, 0, 6/5, 10, 0, 5⟩
    ⟨0, 0, 0, 0, 0, 0, 1, 1, 0, 4⟩
    (by
      rw [reportLe_iff]
      intro hgt
      rw [reportCmp_gt_iff] at hgt
      norm_num at hgt)
    (by
      rw [reportLe_iff]
      intro hgt
      rw [reportCmp_gt_iff] at hgt
      norm_num at hgt)

/-- Helper: buy notional is additive over concatenation. -/
theorem buyNotional_append (xs ys : List DesiredOrder) :
    buyNotional (xs ++ ys) = buyNotional xs + buyNotional ys := by
  simp [buyNotional]

/-- Helper: sell quantity is additive over concatenation. -/
theorem sellQtySum_append (xs ys : List DesiredOrder) :
    sellQtySum (xs ++ ys) = sellQtySum xs + sellQtySum ys := by
  simp [sellQtySum]

/-- Helper: the clamped quantity min-then-floor-at-zero is nonnegative. -/
theorem clamp_nonneg (d m : ℚ) : 0 ≤ max (min d m) 0 :=
  le_max_right _ _

/-- Helper: a buy quantity clamped by remaining_quote/price never costs
more than the remaining quote, for any price. -/
theorem buy_clamp_notional_le (d rq bp : ℚ) (hrq : 0 ≤ rq) :
    max (min d (if bp > 0 then rq / bp else 0)) 0 * bp ≤ rq := by
  by_cases hbp : bp > 0
  · rw [if_pos hbp]
    have h1 : max (min d (rq / bp)) 0 ≤ rq / bp :=
      max_le (min_le_right _ _) (div_nonneg hrq hbp.le)
    calc max (min d (rq / bp)) 0 * bp
        ≤ rq / bp * bp := mul_le_mul_of_nonneg_right h1 hbp.le
      _ = rq := div_mul_cancel₀ rq (ne_of_gt hbp)
  · rw [if_neg hbp]
    have h0 : max (min d 0) 0 = 0 := max_eq_right (min_le_right d 0)
    rw [h0, zero_mul]
    exact hrq

/-- Helper: a sell quantity clamped by the remaining base never exceeds
it. -/
theorem sell_clamp_le (d rb : ℚ) (hrb : 0 ≤ rb) : max (min d rb) 0 ≤ rb :=
  max_le (min_le_right _ _) hrb

/-- Helper: with a positive step and a level of at least one, the buy
price of the level sits strictly below the anchor. -/
theorem grid_buy_price_lt_anchor (anchor step : ℚ) (lvl : ℕ)
    (hstep : 0 < step) (hlvl : 1 ≤ lvl) (ha : 0 < anchor) :
    anchor / bps_factor (step * lvl) < anchor := by
  have hl : (1 : ℚ) ≤ (lvl : ℚ) := by exact_mod_cast hlvl
  have hf : 1 < bps_factor (step * lvl) := by
    unfold bps_factor
    have h1 : 0 < step * (lvl : ℚ) := mul_pos hstep (by linarith)
    have h2 : 0 < step * (lvl : ℚ) / 10000 := div_pos h1 (by norm_num)
    linarith
  exact div_lt_self ha hf

/-- Helper: with a positive step and a level of at least one, the sell
price of the level sits strictly above the anchor. -/
theorem grid_sell_price_gt_anchor (anchor step : ℚ) (lvl : ℕ)
    (hstep : 0 < step) (hlvl : 1 ≤ lvl) (ha : 0 < anchor) :
    anchor < anchor * bps_factor (step * lvl) := by
  have hl : (1 : ℚ) ≤ (lvl : ℚ) := by exact_mod_cast hlvl
  have hf : 1 < bps_factor (step * lvl) := by
    unfold bps_factor
    have h1 : 0 < step * (lvl : ℚ) := mul_pos hstep (by linarith)
    have h2 : 0 < step * (lvl : ℚ) / 10000 := div_pos h1 (by norm_num)
    linarith
  exact (lt_mul_iff_one_lt_right ha).2 hf

/-- Helper: the buy leg of one grid level: it never touches the base
remainder, keeps the quote remainder nonnegative, conserves quote plus
emitted buy notional, and only appends a buy order that passed the
min-quantity filter. -/
theorem grid_buy_leg (pm pr q : ℚ) (acc acc2 : GridAcc)
    (hle : q * pr ≤ acc.remaining_quote) (hqq : 0 ≤ acc.remaining_quote)
    (h2 : acc2 = if q ≥ pm then
        { acc with remaining_quote := acc.remaining_quote - q * pr,
                   out := acc.out ++ [⟨Side.Buy, pr, q⟩] } else acc) :
    acc2.remaining_base = acc.remaining_base ∧
    0 ≤ acc2.remaining_quote ∧
    sellQtySum acc2.out = sellQtySum acc.out ∧
    acc2.remaining_quote + buyNotional acc2.out
      = acc.remaining_quote + buyNotional acc.out ∧
    ∀ o ∈ acc2.out, o ∈ acc.out ∨
      (pm ≤ o.qty ∧ o = ⟨Side.Buy, pr, q⟩) := by
  subst h2
  split_ifs with hmin
  · refine ⟨rfl, by simp only; linarith, ?_, ?_, ?_⟩
    · simp [sellQtySum_append, sellQtySum]
    · simp only [sellQtySum_append, buyNotional_append]
      have hb1 : buyNotional [⟨Side.Buy, pr, q⟩] = q * pr := by
        simp [buyNotional]
      rw [hb1]
      ring
    · intro o ho
      rcases List.mem_append.mp ho with h | h
      · exact Or.inl h
      · have hoe := List.mem_singleton.mp h
        subst hoe
        exact Or.inr ⟨hmin, rfl⟩
  · exact ⟨rfl, hqq, rfl, by ring, fun o ho => Or.inl ho⟩

/-- Helper: the sell leg of one grid level: it never touches the quote
remainder, keeps the base remainder nonnegative, conserves base plus
emitted sell quantity, and only appends a sell order that passed the
min-quantity filter. -/
theorem grid_sell_leg (pm pr q : ℚ) (acc acc2 : GridAcc)
    (hq0 : 0 ≤ q) (hle : q ≤ acc.remaining_base)
    (h2 : acc2 = if q ≥ pm then
        { acc with remaining_base := acc.remaining_base - q,
                   out := acc.out ++ [⟨Side.Sell, pr, q⟩] } else acc) :
    acc2.remaining_quote = acc.remaining_quote ∧
    0 ≤ acc2.remaining_base ∧
    buyNotional acc2.out = buyNotional acc.out ∧
    acc2.remaining_base + sellQtySum acc2.out
      = acc.remaining_base + sellQtySum acc.out ∧
    ∀ o ∈ acc2.out, o ∈ acc.out ∨
      (pm ≤ o.qty ∧ o = ⟨Side.Sell, pr, q⟩) := by
  subst h2
  split_ifs with hmin
  · refine ⟨rfl, by simp only; linarith, ?_, ?_, ?_⟩
    · simp [buyNotional_append, buyNotional]
    · simp only [sellQtySum_append]
      have hs1 : sellQtySum [⟨Side.Sell, pr, q⟩] = q := by
        simp [sellQtySum]
      rw [hs1]
      ring
    · intro o ho
      rcases List.mem_append.mp ho with h | h
      · exact Or.inl h
      · have hoe := List.mem_singleton.mp h
        subst hoe
        exact Or.inr ⟨hmin, rfl⟩
  · exact ⟨rfl, by linarith, rfl, by ring, fun o ho => Or.inl ho⟩

/-- Helper: one grid level keeps both remainders nonnegative, conserves
remainder-plus-emitted on each side, and only appends orders that passed
the min-quantity filter with prices on the correct side of the anchor. -/
theorem gridStep_spec (anchor : ℚ) (p : GridParams) (bm sm : ℚ)
    (acc : GridAcc) (lvl : ℕ)
    (hb : 0 ≤ acc.remaining_base) (hq : 0 ≤ acc.remaining_quote) :
    0 ≤ (gridStep anchor p bm sm acc lvl).remaining_base ∧
    0 ≤ (gridStep anchor p bm sm acc lvl).remaining_quote ∧
    (gridStep anchor p bm sm acc lvl).remaining_base
        + sellQtySum (gridStep anchor p bm sm acc lvl).out
      = acc.remaining_base + sellQtySum acc.out ∧
    (gridStep anchor p bm sm acc lvl).remaining_quote
        + buyNotional (gridStep anchor p bm sm acc lvl).out
      = acc.remaining_quote + buyNotional acc.out ∧
    (∀ o ∈ (gridStep anchor p bm sm acc lvl).out, o ∈ acc.out ∨
      (p.min_base_qty ≤ o.qty ∧
        (0 < p.step → 1 ≤ lvl → 0 < anchor →
          (o.side = Side.Buy → o.price < anchor) ∧
          (o.side = Side.Sell → anchor < o.price)))) := by
  set bp := anchor / bps_factor (p.step * (lvl : ℚ)) with hbp
  set sp := anchor * bps_factor (p.step * (lvl : ℚ)) with hsp
  set bqty := max (min (p.base_quote_per_order / bp * bm)
      (if bp > 0 then acc.remaining_quote / bp else 0)) 0 with hbqty
  set sqty := max (min (p.base_quote_per_order / sp * sm) acc.remaining_base) 0
    with hsqty
  set acc1 := if bqty ≥ p.min_base_qty then
      { acc with remaining_quote := acc.remaining_quote - bqty * bp,
                 out := acc.out ++ [⟨Side.Buy, bp, bqty⟩] }
    else acc with hacc1
  have key : gridStep anchor p bm sm acc lvl
      = if sqty ≥ p.min_base_qty then
          { acc1 with remaining_base := acc1.remaining_base - sqty,
                      out := acc1.out ++ [⟨Side.Sell, sp, sqty⟩] }
        else acc1 := rfl
  have hble : bqty * bp ≤ acc.remaining_quote := by
    rw [hbqty, hbp]
    exact buy_clamp_notional_le _ _ _ hq
  obtain ⟨hB1, hB2, hB3, hB4, hB5⟩ :=
    grid_buy_leg p.min_base_qty bp bqty acc acc1 hble hq hacc1
  have hsle : sqty ≤ acc1.remaining_base := by
    rw [hB1, hsqty]
    exact sell_clamp_le _ _ hb
  have hs0 : 0 ≤ sqty := by
    rw [hsqty]
    exact clamp_nonneg _ _
  obtain ⟨hS1, hS2, hS3, hS4, hS5⟩ :=
    grid_sell_leg p.min_base_qty sp sqty acc1
      (if sqty ≥ p.min_base_qty then
          { acc1 with remaining_base := acc1.remaining_base - sqty,
                      out := acc1.out ++ [⟨Side.Sell, sp, sqty⟩] }
        else acc1) hs0 hsle rfl
  rw [key]
  refine ⟨hS2, ?_, ?_, ?_, ?_⟩
  · rw [hS1]
    exact hB2
  · rw [hS4, hB1, hB3]
  · rw [hS1, hS3, hB4]
  · intro o ho
    rcases hS5 o ho with h | ⟨hminq, rfl⟩
    · rcases hB5 o h with h0 | ⟨hminq, rfl⟩
      · exact Or.inl h0
      · refine Or.inr ⟨hminq, ?_⟩
        intro hstep hlvl ha
        constructor
        · intro _
          rw [hbp]
          exact grid_buy_price_lt_anchor anchor p.step lvl hstep hlvl ha
        · intro hside
          exact absurd hside (by simp)
    · refine Or.inr ⟨hminq, ?_⟩
      intro hstep hlvl ha
      constructor
      · intro hside
        exact absurd hside (by simp)
      · intro _
        rw [hsp]
        exact grid_sell_price_gt_anchor anchor p.step lvl hstep hlvl ha

/-- Helper: the whole level loop of build_grid keeps both remainders
nonnegative, conserves remainder plus emitted totals on each side, and
every emitted order passed the min-quantity filter with its price on the
correct side of the anchor. -/
theorem gridFold_spec (anchor : ℚ) (p : GridParams) (bm sm : ℚ) :
    ∀ (lvls : List ℕ) (acc : GridAcc),
      (∀ l ∈ lvls, 1 ≤ l) → 0 ≤ acc.remaining_base → 0 ≤ acc.remaining_quote →
      0 ≤ (lvls.foldl (gridStep anchor p bm sm) acc).remaining_base ∧
      0 ≤ (lvls.foldl (gridStep anchor p bm sm) acc).remaining_quote ∧
      (lvls.foldl (gridStep anchor p bm sm) acc).remaining_base
          + sellQtySum (lvls.foldl (gridStep anchor p bm sm) acc).out
        = acc.remaining_base + sellQtySum acc.out ∧
      (lvls.foldl (gridStep anchor p bm sm) acc).remaining_quote
          + buyNotional (lvls.foldl (gridStep anchor p bm sm) acc).out
        = acc.remaining_quote + buyNotional acc.out ∧
      (∀ o ∈ (lvls.foldl (gridStep anchor p bm sm) acc).out, o ∈ acc.out ∨
        (p.min_base_qty ≤ o.qty ∧
          (0 < p.step → 0 < anchor →
            (o.side = Side.Buy → o.price < anchor) ∧
            (o.side = Side.Sell → anchor < o.price)))) := by
  intro lvls
  induction lvls with
  | nil =>
    intro acc _ hb hq
    exact ⟨hb, hq, rfl, rfl, fun o ho => Or.inl ho⟩
  | cons l rest ih =>
    intro acc hlv hb hq
    have hl1 : 1 ≤ l := hlv l (List.mem_cons_self l rest)
    obtain ⟨s1, s2, s3, s4, s5⟩ := gridStep_spec anchor p bm sm acc l hb hq
    have hrest : ∀ x ∈ rest, 1 ≤ x := fun x hx => hlv x (List.mem_cons_of_mem l hx)
    obtain ⟨f1, f2, f3, f4, f5⟩ :=
      ih (gridStep anchor p bm sm acc l) hrest s1 s2
    rw [List.foldl_cons]
    refine ⟨f1, f2, by rw [f3, s3], by rw [f4, s4], ?_⟩
    intro o ho
    rcases f5 o ho with h | ⟨hminq, hcond⟩
    · rcases s5 o h with h0 | ⟨hminq, hcond⟩
      · exact Or.inl h0
      · exact Or.inr ⟨hminq, fun hs ha => hcond hs hl1 ha⟩
    · exact Or.inr ⟨hminq, hcond⟩

/-- C1 (amended): every grid that build_grid returns keeps total buy
notional within the quote inventory and total sell quantity within the
base inventory, each emitted order meets the minimum base quantity, and,
provided the grid step is positive, every buy price is strictly below the
anchor and every sell price strictly above it. -/
theorem C1_grid_caps (anchor mid : ℚ) (inv : Inventory) (p : GridParams)
    (orders : List DesiredOrder)
    (h : build_grid anchor mid inv p = some orders) :
    buyNotional orders ≤ inv.quote ∧
    sellQtySum orders ≤ inv.base ∧
    (∀ o ∈ orders, p.min_base_qty ≤ o.qty) ∧
    (0 < p.step → ∀ o ∈ orders,
      (o.side = Side.Buy → o.price < anchor) ∧
      (o.side = Side.Sell → anchor < o.price)) := by
  unfold build_grid at h
  split at h
  · exact absurd h (by simp)
  rename_i hguard1
  split at h
  · exact absurd h (by simp)
  rename_i hguard2
  split at h
  · exact absurd h (by simp)
  rename_i r hr
  split at h
  · exact absurd h (by simp)
  rename_i hband
  have hbase : 0 ≤ inv.base := by
    push_neg at hguard2
    exact hguard2.1
  have hquote : 0 ≤ inv.quote := by
    push_neg at hguard2
    exact hguard2.2
  have hanchor : 0 < anchor := by
    push_neg at hguard1
    exact hguard1.2.2
  have horders := Option.some.inj h
  have hlv : ∀ l ∈ List.range' 1 p.levels, 1 ≤ l := by
    intro l hl
    exact (List.mem_range'_1.mp hl).1
  obtain ⟨f1, f2, f3, f4, f5⟩ :=
    gridFold_spec anchor p
      (if r > 1 / 2 then
          ((1 : ℚ) / (1 + (p.max_size_mult - 1) * min (|r - 1 / 2| / (1 / 2)) 1),
            1 + (p.max_size_mult - 1) * min (|r - 1 / 2| / (1 / 2)) 1)
        else if r < 1 / 2 then
          (1 + (p.max_size_mult - 1) * min (|r - 1 / 2| / (1 / 2)) 1,
            (1 : ℚ) / (1 + (p.max_size_mult - 1) * min (|r - 1 / 2| / (1 / 2)) 1))
        else ((1 : ℚ), (1 : ℚ))).1
      (if r > 1 / 2 then
          ((1 : ℚ) / (1 + (p.max_size_mult - 1) * min (|r - 1 / 2| / (1 / 2)) 1),
            1 + (p.max_size_mult - 1) * min (|r - 1 / 2| / (1 / 2)) 1)
        else if r < 1 / 2 then
          (1 + (p.max_size_mult - 1) * min (|r - 1 / 2| / (1 / 2)) 1,
            (1 : ℚ) / (1 + (p.max_size_mult - 1) * min (|r - 1 / 2| / (1 / 2)) 1))
        else ((1 : ℚ), (1 : ℚ))).2
      (List.range' 1 p.levels) ⟨inv.base, inv.quote, []⟩ hlv hbase hquote
  rw [horders] at f3 f4 f5
  have hsell0 : sellQtySum ([] : List DesiredOrder) = 0 := rfl
  have hbuy0 : buyNotional ([] : List DesiredOrder) = 0 := rfl
  simp only [hsell0, hbuy0, add_zero] at f3 f4
  refine ⟨by linarith, by linarith, ?_, ?_⟩
  · intro o ho
    rcases f5 o ho with h0 | ⟨hminq, _⟩
    · exact absurd h0 (List.not_mem_nil o)
    · exact hminq
  · intro hstep o ho
    rcases f5 o ho with h0 | ⟨_, hcond⟩
    · exact absurd h0 (List.not_mem_nil o)
    · exact hcond hstep hanchor

/-- C1 witness: a one-level grid with unit inventory, unit prices and a
positive step emits one buy strictly below and one sell strictly above
the anchor within both budgets. -/
theorem C1_grid_caps_witness :
    buyNotional [⟨Side.Buy, 10000/10001, 10001/10000⟩,
        ⟨Side.Sell, 10001/10000, 10000/10001⟩] ≤ 1 ∧
    sellQtySum [⟨Side.Buy, 10000/10001, 10001/10000⟩,
        ⟨Side.Sell, 10001/10000, 10000/10001⟩] ≤ 1 ∧
    (∀ o ∈ [(⟨Side.Buy, 10000/10001, 10001/10000⟩ : DesiredOrder),
        ⟨Side.Sell, 10001/10000, 10000/10001⟩], (0:ℚ) ≤ o.qty) ∧
    (0 < (1:ℚ) → ∀ o ∈ [(⟨Side.Buy, 10000/10001, 10001/10000⟩ : DesiredOrder),
        ⟨Side.Sell, 10001/10000, 10000/10001⟩],
      (o.side = Side.Buy → o.price < 1) ∧ (o.side = Side.Sell → 1 < o.price)) :=
  C1_grid_caps 1 1 ⟨1, 1⟩ ⟨1, 1, 1, 1, 0, 1, 0, 1, 0⟩
    [⟨Side.Buy, 10000/10001, 10001/10000⟩, ⟨Side.Sell, 10001/10000, 10000/10001⟩]
    (by norm_num [build_grid, gridStep, base_ratio, equity, bps_factor, List.range'])

/-- C1 counterexample to the claim as stated: build_grid does not validate
the step, so with step = 0 it returns a grid whose buy order sits exactly
at the anchor, not strictly below it. -/
theorem C1_counterexample :
    build_grid 1 1 ⟨1, 1⟩ ⟨1, 0, 1, 1, 0, 1, 0, 1, 0⟩
        = some [⟨Side.Buy, 1, 1⟩, ⟨Side.Sell, 1, 1⟩] ∧
    ¬ ((⟨Side.Buy, 1, 1⟩ : DesiredOrder).price < 1) := by
  constructor
  · norm_num [build_grid, gridStep, base_ratio, equity, bps_factor, List.range']
  · norm_num

/-- C10: the metrics tokenizer runs on every line, with no exemption for
artifacts: lines, so an artifacts line registers its kind=path pairs both
as artifacts and as string metrics keyed by the artifact kind; shown
structurally for every artifacts: line and concretely on a two-artifact
line. -/
theorem C10_artifacts_line_also_metrics :
    (∀ (rest : Str) (metrics : List (Str × Jval)) (artifacts : List (Str × Str)),
      (collect_results_from_line ("artifacts:".toList ++ rest) metrics artifacts).1
        = metricsPhase ("artifacts:".toList ++ rest) metrics) ∧
    collect_results_from_line "artifacts: equity=out/eq.csv fills=out/fills.csv".toList [] []
      = ([("equity".toList, Jval.str "out/eq.csv".toList),
          ("fills".toList, Jval.str "out/fills.csv".toList)],
         [("equity".toList, "out/eq.csv".toList),
          ("fills".toList, "out/fills.csv".toList)]) := by
  exact ⟨fun rest metrics artifacts => rfl, by decide⟩
